import Mathlib

/-!
Shallow embedding of the vocabulary-trainer sampling engine of
`randomwords_w_self_upload.py`, with proofs of the specification's
testable properties.

Modelling conventions:
* a pandas dataframe row is an `Entry`; the dataframe index of the row is
  `Entry.id`; the record store (the global `df`) is a `List Entry`; a loaded
  store has pairwise distinct ids (pandas indexes are unique), carried as a
  hypothesis where needed;
* `pool.sample(n)` draws `n` rows uniformly without replacement; it is
  modelled by a parameter `draw : List Entry → Nat → List Entry` constrained
  by `IsDraw`: the result is a sub-multiset of the pool (order arbitrary) of
  size `min n pool.length`;
* Python `int(...)` applied to a text field either yields an integer or
  raises `ValueError`; a numeric text field is therefore modelled as
  `Option Int` (`none` = the field does not parse as an integer);
* `messagebox.showerror` followed by an early return is modelled with
  `Except SampleError`;
* the UI widgets, the file dialog and the actual disk I/O carry no state of
  the core and are out of scope; `load_file` is modelled on the three global
  variables it mutates, with the table returned by `pd.read_csv` /
  `pd.read_excel` supplied as an argument.
-/

/-- One row of the vocabulary table. -/
structure Entry where
  id : Nat
  deutsch : String
  english : String
  category : String
  status : String
  timesShown : Nat
deriving DecidableEq

/-- Error conditions of a sampling call: no file loaded (line 121), the
fallback field does not parse (line 146), and a negative count reaching
`DataFrame.sample` (which raises `ValueError`). -/
inductive SampleError where
  | noData
  | invalidNumericInput
  | negativeSample
deriving DecidableEq

/-- Translation of `format_display_text` (lines 178-185). -/
def format_display_text (row : Entry) (mode : String) : String :=
  if mode = "Deutsch" then row.deutsch
  else if mode = "English" then row.english
  else row.deutsch ++ "  —  " ++ row.english

/-- Entries whose status is not mastered (line 125). -/
def eligible_pool (store : List Entry) : List Entry :=
  store.filter (fun e => e.status != "mastered")

/-- Entries of the eligible pool whose status is review (line 128). -/
def review_pool_of (store : List Entry) : List Entry :=
  (eligible_pool store).filter (fun e => e.status == "review")

/-- Dropping already-drawn rows from a pool by dataframe index
(`base_pool.drop(index=....index)`, lines 137 and 173). -/
def removeDrawn (pool rows : List Entry) : List Entry :=
  pool.filter (fun e => ! rows.any (fun r => r.id == e.id))

/-- Abstract draw without replacement: any admissible implementation of
`pool.sample(n)` returns a sub-multiset of the pool whose size is
`min n pool.length`. -/
def IsDraw (draw : List Entry → Nat → List Entry) : Prop :=
  ∀ pool n, List.Subperm (draw pool n) pool ∧ (draw pool n).length = min n pool.length

/-- A concrete admissible draw: take the first `n` rows of the pool. -/
def drawTake (pool : List Entry) (n : Nat) : List Entry :=
  pool.take n

/-- Review-phase draw (lines 127-135): when the requested review count is
positive and the review pool is non-empty, draw
`min review_count |review_pool|` rows from the review pool. -/
def review_draw (draw : List Entry → Nat → List Entry) (store : List Entry)
    (review_count : Int) : List Entry :=
  if 0 < review_count ∧ 0 < (review_pool_of store).length then
    draw (review_pool_of store)
      (min review_count.toNat (review_pool_of store).length)
  else []

/-- Working pool after the review phase (line 137): the review picks are
dropped only when the review branch actually ran. -/
def pool_after_review (draw : List Entry → Nat → List Entry) (store : List Entry)
    (review_count : Int) : List Entry :=
  if 0 < review_count ∧ 0 < (review_pool_of store).length then
    removeDrawn (eligible_pool store) (review_draw draw store review_count)
  else eligible_pool store

/-- Per-category sampling loop (lines 157-173); `selected` is the
accumulator of `(index, display text)` pairs built so far. -/
def sample_cats (draw : List Entry → Nat → List Entry) (mode : String) :
    List (String × Int) → List Entry → List (Nat × String) → List (Nat × String)
  | [], _, selected => selected
  | (cat, needed) :: rest, base_pool, selected =>
    if needed ≤ 0 then sample_cats draw mode rest base_pool selected
    else
      let pool_cat := base_pool.filter (fun e => e.category == cat)
      if pool_cat.length = 0 then sample_cats draw mode rest base_pool selected
      else
        let rows := draw pool_cat (min needed.toNat pool_cat.length)
        sample_cats draw mode rest (removeDrawn base_pool rows)
          (selected ++ rows.map (fun e => (e.id, format_display_text e mode)))

/-- Translation of `sample_items` (lines 118-175). `num_entries` is the
parse result of the fallback-count text field (`int(num_entries.get())`,
line 144), read only on the fallback path; a negative fallback count
survives `min` and reaches `DataFrame.sample`, which raises
(`SampleError.negativeSample`). -/
def sample_items (draw : List Entry → Nat → List Entry) (store : List Entry)
    (category_counts : List (String × Int)) (review_count : Int)
    (display_mode : String) (num_entries : Option Int) :
    Except SampleError (List (Nat × String)) :=
  if store.length = 0 then .error .noData
  else
    let selected := (review_draw draw store review_count).map
      (fun e => (e.id, format_display_text e display_mode))
    let base_pool := pool_after_review draw store review_count
    if (category_counts.map Prod.snd).sum = 0 ∧ review_count = 0 then
      match num_entries with
      | none => .error .invalidNumericInput
      | some n0 =>
        if min n0 (base_pool.length : Int) < 0 then .error .negativeSample
        else
          .ok (selected ++
            (draw base_pool (min n0 (base_pool.length : Int)).toNat).map
              (fun e => (e.id, format_display_text e display_mode)))
    else .ok (sample_cats draw display_mode category_counts base_pool selected)

/-- Numeric-field collection of `show_entries` (lines 202-215) combined with
its call to `sample_items`: a category or review field that does not parse
is read as `0`. -/
def show_entries_sample (draw : List Entry → Nat → List Entry) (store : List Entry)
    (category_vars : List (String × Option Int)) (review_field : Option Int)
    (mode : String) (num_field : Option Int) :
    Except SampleError (List (Nat × String)) :=
  sample_items draw store
    (category_vars.map (fun cv => (cv.1, cv.2.getD 0)))
    (review_field.getD 0) mode num_field

/-- Bookkeeping of `show_entries` (lines 221-223): the TimesShown cell of
each selected index is incremented. -/
def update_times_shown (store : List Entry) (results : List (Nat × String)) :
    List Entry :=
  results.foldl
    (fun s p => s.map (fun e =>
      if e.id = p.1 then { e with timesShown := e.timesShown + 1 } else e))
    store

/-- The status write `df.at[idx, "Status"] = st` shared by the three status
callbacks (lines 262-286). -/
def set_status (store : List Entry) (idx : Nat) (st : String) : List Entry :=
  store.map (fun e => if e.id = idx then { e with status := st } else e)

/-- Status write performed by `mark_mastered` (line 275). -/
def mark_mastered (store : List Entry) (idx : Nat) : List Entry :=
  set_status store idx "mastered"

/-- Status write performed by `mark_review` (line 266). -/
def mark_review (store : List Entry) (idx : Nat) : List Entry :=
  set_status store idx "review"

/-- Status write performed by `clear_status` (line 284). -/
def clear_status (store : List Entry) (idx : Nat) : List Entry :=
  set_status store idx "normal"

/-- A loaded tabular file: column names and string-valued rows. -/
structure Table where
  columns : List String
  rows : List (List String)
deriving DecidableEq

/-- The three global variables of the script (lines 9-11). -/
structure AppState where
  csv_file_path : Option String
  df : Option Table
  all_categories : List String
deriving DecidableEq

/-- Python `str.endswith`, on the character list of the string. -/
def endsWith (s suffix : String) : Bool :=
  suffix.toList.isSuffixOf s.toList

/-- Values of a named column of a table. -/
def colValues (t : Table) (c : String) : List String :=
  match t.columns.findIdx? (fun x => x == c) with
  | none => []
  | some i => t.rows.filterMap (fun r => r[i]?)

/-- Append a column filled with a default value when it is absent
(lines 40-43). -/
def addColumn (t : Table) (name dflt : String) : Table :=
  if t.columns.contains name then t
  else { columns := t.columns ++ [name], rows := t.rows.map (fun r => r ++ [dflt]) }

/-- Add the optional TimesShown and Status columns (lines 40-43). -/
def ensure_optional_columns (t : Table) : Table :=
  addColumn (addColumn t "TimesShown" "0") "Status" "normal"

/-- Sorted distinct category labels (line 46). -/
def sortedCategories (t : Table) : List String :=
  List.insertionSort (fun a b => a ≤ b) (colValues t "Category").dedup

/-- Translation of `load_file` (lines 14-56); `read_result` is the table
that `pd.read_csv` / `pd.read_excel` returns for `filepath`. The `save_df`
call and the message boxes are I/O glue without core state. The
translation keeps the source's order of effects: `df` (lines 21/23) and
`CSV_FILE_PATH` (line 28) are assigned before the required columns are
checked (line 32). -/
def load_file (st : AppState) (filepath : String) (read_result : Table) :
    AppState × Bool :=
  if endsWith filepath ".csv" ∨ endsWith filepath ".xlsx" ∨ endsWith filepath ".xls" then
    let st1 : AppState :=
      { st with df := some read_result, csv_file_path := some filepath }
    if ["Deutsch", "English", "Category"].all (fun c => read_result.columns.contains c) then
      let t := ensure_optional_columns read_result
      ({ st1 with df := some t, all_categories := sortedCategories t }, true)
    else (st1, false)
  else (st, false)

/-- Concrete entry used to evaluate the model. -/
def eHund : Entry :=
  { id := 0, deutsch := "Hund", english := "dog", category := "A",
    status := "normal", timesShown := 0 }

/-- Concrete entry used to evaluate the model. -/
def eBerg : Entry :=
  { id := 1, deutsch := "Berg", english := "mountain", category := "B",
    status := "normal", timesShown := 0 }

/-- Concrete mastered entry used to evaluate the model. -/
def eKatze : Entry :=
  { id := 2, deutsch := "Katze", english := "cat", category := "A",
    status := "mastered", timesShown := 3 }

/-- Concrete review-status entry used to evaluate the model. -/
def eBaum : Entry :=
  { id := 3, deutsch := "Baum", english := "tree", category := "B",
    status := "review", timesShown := 1 }

/-- Four-entry store used to evaluate the model. -/
def wstore : List Entry := [eHund, eBerg, eKatze, eBaum]

/-- Fixture: application state with a previously loaded valid file. -/
def priorState : AppState :=
  { csv_file_path := some "vocab.csv",
    df := some { columns := ["Deutsch", "English", "Category", "TimesShown", "Status"],
                 rows := [["Hund", "dog", "A", "0", "normal"]] },
    all_categories := ["A"] }

/-- Fixture: a CSV read result that lacks the required columns. -/
def badTable : Table :=
  { columns := ["Word", "Translation"], rows := [["Hund", "dog"]] }

/-! ### Basic lemmas about the embedding -/

theorem drawTake_isDraw : IsDraw drawTake := by
  intro pool n
  exact ⟨(List.take_sublist n pool).subperm, List.length_take n pool⟩

theorem mem_eligible_pool {store : List Entry} {e : Entry} :
    e ∈ eligible_pool store ↔ e ∈ store ∧ e.status ≠ "mastered" := by
  simp [eligible_pool, List.mem_filter]

theorem mem_review_pool {store : List Entry} {e : Entry} :
    e ∈ review_pool_of store ↔
      (e ∈ store ∧ e.status ≠ "mastered") ∧ e.status = "review" := by
  rw [review_pool_of, List.mem_filter]
  simp only [mem_eligible_pool, beq_iff_eq]

theorem mem_removeDrawn {pool rows : List Entry} {e : Entry} :
    e ∈ removeDrawn pool rows ↔ e ∈ pool ∧ ∀ r ∈ rows, r.id ≠ e.id := by
  simp [removeDrawn, List.mem_filter]

theorem removeDrawn_nil (pool : List Entry) : removeDrawn pool [] = pool := by
  simp [removeDrawn]

theorem removeDrawn_subset {pool rows : List Entry} :
    ∀ e ∈ removeDrawn pool rows, e ∈ pool :=
  fun _ he => (mem_removeDrawn.mp he).1

theorem map_id_filter (l : List Entry) (p : Nat → Bool) :
    (l.filter (fun e => p e.id)).map Entry.id = (l.map Entry.id).filter p := by
  induction l with
  | nil => simp
  | cons a t ih =>
    by_cases h : p a.id <;> simp [List.filter_cons, h, ih]

theorem subperm_ids_nodup {l₁ l₂ : List Entry} (h : List.Subperm l₁ l₂)
    (h₂ : (l₂.map Entry.id).Nodup) : (l₁.map Entry.id).Nodup := by
  obtain ⟨l, hp, hs⟩ := h
  have hsub : (l.map Entry.id).Nodup := ((hs.map Entry.id).nodup h₂)
  exact (hp.map Entry.id).nodup hsub

theorem drawn_append_removeDrawn_nodup {pool rows : List Entry}
    (hpool : (pool.map Entry.id).Nodup) (hrows : (rows.map Entry.id).Nodup) :
    ((rows.map Entry.id) ++ ((removeDrawn pool rows).map Entry.id)).Nodup := by
  rw [List.nodup_append]
  refine ⟨hrows, ?_, ?_⟩
  · rw [show (removeDrawn pool rows).map Entry.id
        = (pool.map Entry.id).filter (fun i => ! rows.any (fun r => r.id == i))
      from map_id_filter pool (fun i => ! rows.any (fun r => r.id == i))]
    exact hpool.filter _
  · intro i hi hmem
    rw [show (removeDrawn pool rows).map Entry.id
        = (pool.map Entry.id).filter (fun i => ! rows.any (fun r => r.id == i))
      from map_id_filter pool (fun i => ! rows.any (fun r => r.id == i))] at hmem
    have hkeep := List.of_mem_filter hmem
    simp only [List.mem_map] at hi
    obtain ⟨r, hr, hri⟩ := hi
    simp only [Bool.not_eq_true', List.any_eq_false] at hkeep
    exact absurd (by simpa using hri) (by simpa using hkeep r hr)

theorem eq_of_mem_ids_nodup {l : List Entry} (h : (l.map Entry.id).Nodup)
    {a b : Entry} (ha : a ∈ l) (hb : b ∈ l) (hab : a.id = b.id) : a = b := by
  induction l with
  | nil => cases ha
  | cons x t ih =>
    rw [List.map_cons, List.nodup_cons] at h
    rcases List.mem_cons.mp ha with rfl | ha' <;>
      rcases List.mem_cons.mp hb with rfl | hb'
    · rfl
    · exact absurd (hab ▸ List.mem_map_of_mem Entry.id hb') h.1
    · exact absurd (hab ▸ List.mem_map_of_mem Entry.id ha') h.1
    · exact ih h.2 ha' hb'

theorem eligible_ids_nodup {store : List Entry}
    (h : (store.map Entry.id).Nodup) :
    ((eligible_pool store).map Entry.id).Nodup :=
  ((List.filter_sublist store).map Entry.id).nodup h

theorem review_pool_ids_nodup {store : List Entry}
    (h : (store.map Entry.id).Nodup) :
    ((review_pool_of store).map Entry.id).Nodup :=
  ((List.filter_sublist (eligible_pool store)).map Entry.id).nodup
    (eligible_ids_nodup h)

theorem review_draw_mem {draw : List Entry → Nat → List Entry}
    (hdraw : IsDraw draw) {store : List Entry} {rc : Int} :
    ∀ e ∈ review_draw draw store rc, e ∈ review_pool_of store := by
  intro e he
  unfold review_draw at he
  split at he
  · exact (hdraw _ _).1.subset he
  · cases he

theorem review_draw_length {draw : List Entry → Nat → List Entry}
    (hdraw : IsDraw draw) (store : List Entry) (rc : Int) :
    (review_draw draw store rc).length
      = min rc.toNat (review_pool_of store).length := by
  unfold review_draw
  split
  · rw [(hdraw _ _).2, Nat.min_assoc, Nat.min_self]
  · rename_i hcond
    rw [not_and_or] at hcond
    rcases hcond with h | h
    · have : rc ≤ 0 := not_lt.mp h
      simp [Int.toNat_of_nonpos this]
    · have : (review_pool_of store).length = 0 := by omega
      simp [this]

theorem pool_after_review_subset {draw : List Entry → Nat → List Entry}
    {store : List Entry} {rc : Int} :
    ∀ e ∈ pool_after_review draw store rc, e ∈ eligible_pool store := by
  intro e he
  unfold pool_after_review at he
  split at he
  · exact removeDrawn_subset e he
  · exact he

theorem review_draw_zero {draw : List Entry → Nat → List Entry}
    {store : List Entry} : review_draw draw store 0 = [] := by
  simp [review_draw]

theorem pool_after_review_zero {draw : List Entry → Nat → List Entry}
    {store : List Entry} :
    pool_after_review draw store 0 = eligible_pool store := by
  simp [pool_after_review]

theorem sample_cats_nil (draw : List Entry → Nat → List Entry) (mode : String)
    (pool : List Entry) (sel : List (Nat × String)) :
    sample_cats draw mode [] pool sel = sel := rfl

theorem sample_cats_cons (draw : List Entry → Nat → List Entry) (mode : String)
    (cat : String) (needed : Int) (rest : List (String × Int))
    (pool : List Entry) (sel : List (Nat × String)) :
    sample_cats draw mode ((cat, needed) :: rest) pool sel =
      if needed ≤ 0 then sample_cats draw mode rest pool sel
      else
        let pool_cat := pool.filter (fun e => e.category == cat)
        if pool_cat.length = 0 then sample_cats draw mode rest pool sel
        else
          let rows := draw pool_cat (min needed.toNat pool_cat.length)
          sample_cats draw mode rest (removeDrawn pool rows)
            (sel ++ rows.map (fun e => (e.id, format_display_text e mode))) := rfl

/-! ### Branch lemmas for `sample_items` -/

theorem sample_items_phased (draw : List Entry → Nat → List Entry)
    (store : List Entry) (cats : List (String × Int)) (rc : Int)
    (mode : String) (num : Option Int)
    (hs : store.length ≠ 0) (hf : ¬((cats.map Prod.snd).sum = 0 ∧ rc = 0)) :
    sample_items draw store cats rc mode num =
      .ok (sample_cats draw mode cats (pool_after_review draw store rc)
        ((review_draw draw store rc).map
          (fun e => (e.id, format_display_text e mode)))) := by
  simp [sample_items, hs, hf]

theorem sample_items_fallback_none (draw : List Entry → Nat → List Entry)
    (store : List Entry) (cats : List (String × Int)) (mode : String)
    (hs : store.length ≠ 0) (hsum : (cats.map Prod.snd).sum = 0) :
    sample_items draw store cats 0 mode none = .error .invalidNumericInput := by
  simp [sample_items, hs, hsum]

theorem sample_items_fallback_some (draw : List Entry → Nat → List Entry)
    (store : List Entry) (cats : List (String × Int)) (mode : String) (n : Int)
    (hs : store.length ≠ 0) (hsum : (cats.map Prod.snd).sum = 0) :
    sample_items draw store cats 0 mode (some n) =
      if min n ((eligible_pool store).length : Int) < 0 then
        .error .negativeSample
      else
        .ok ((draw (eligible_pool store)
            (min n ((eligible_pool store).length : Int)).toNat).map
          (fun e => (e.id, format_display_text e mode))) := by
  simp [sample_items, hs, hsum, review_draw, pool_after_review]

/-! ### Invariants of the category loop -/

theorem sample_cats_mem (draw : List Entry → Nat → List Entry)
    (hdraw : IsDraw draw) (mode : String) (P : Entry → Prop) :
    ∀ (cats : List (String × Int)) (pool : List Entry) (sel : List (Nat × String)),
      (∀ e ∈ pool, P e) →
      (∀ p ∈ sel, ∃ e, P e ∧ p = (e.id, format_display_text e mode)) →
      ∀ p ∈ sample_cats draw mode cats pool sel,
        ∃ e, P e ∧ p = (e.id, format_display_text e mode) := by
  intro cats
  induction cats with
  | nil =>
    intro pool sel _ hsel p hp
    rw [sample_cats_nil] at hp
    exact hsel p hp
  | cons cn rest ih =>
    obtain ⟨cat, needed⟩ := cn
    intro pool sel hpool hsel p hp
    rw [sample_cats_cons] at hp
    by_cases h1 : needed ≤ 0
    · rw [if_pos h1] at hp
      exact ih pool sel hpool hsel p hp
    · rw [if_neg h1] at hp
      simp only at hp
      by_cases h2 : (pool.filter (fun e => e.category == cat)).length = 0
      · rw [if_pos h2] at hp
        exact ih pool sel hpool hsel p hp
      · rw [if_neg h2] at hp
        refine ih _ _ ?_ ?_ p hp
        · intro e he
          exact hpool e (removeDrawn_subset e he)
        · intro q hq
          rcases List.mem_append.mp hq with hq | hq
          · exact hsel q hq
          · obtain ⟨e, he, rfl⟩ := List.mem_map.mp hq
            have he' : e ∈ pool.filter (fun e => e.category == cat) :=
              (hdraw _ _).1.subset he
            exact ⟨e, hpool e (List.mem_of_mem_filter he'), rfl⟩

theorem sample_cats_ids_nodup (draw : List Entry → Nat → List Entry)
    (hdraw : IsDraw draw) (mode : String) :
    ∀ (cats : List (String × Int)) (pool : List Entry) (sel : List (Nat × String)),
      ((sel.map Prod.fst) ++ (pool.map Entry.id)).Nodup →
      ((sample_cats draw mode cats pool sel).map Prod.fst).Nodup := by
  intro cats
  induction cats with
  | nil =>
    intro pool sel hinv
    rw [sample_cats_nil]
    exact (List.nodup_append.mp hinv).1
  | cons cn rest ih =>
    obtain ⟨cat, needed⟩ := cn
    intro pool sel hinv
    rw [sample_cats_cons]
    by_cases h1 : needed ≤ 0
    · rw [if_pos h1]; exact ih pool sel hinv
    · rw [if_neg h1]
      simp only
      by_cases h2 : (pool.filter (fun e => e.category == cat)).length = 0
      · rw [if_pos h2]; exact ih pool sel hinv
      · rw [if_neg h2]
        set pc := pool.filter (fun e => e.category == cat) with hpc
        set rows := draw pc (min needed.toNat pc.length) with hrows
        refine ih _ _ ?_
        obtain ⟨hsel, hpool, hdisj⟩ := List.nodup_append.mp hinv
        have hrowsub : ∀ e ∈ rows, e ∈ pool := by
          intro e he
          exact List.mem_of_mem_filter ((hdraw pc _).1.subset he)
        have hrowids : (rows.map Entry.id).Nodup := by
          refine subperm_ids_nodup ((hdraw pc _).1) ?_
          exact ((List.filter_sublist pool).map Entry.id).nodup hpool
        have hkey : ((rows.map Entry.id) ++
            ((removeDrawn pool rows).map Entry.id)).Nodup :=
          drawn_append_removeDrawn_nodup hpool hrowids
        rw [List.map_append, List.map_map]
        have hfst : ((fun p => p.1) ∘
            (fun e => (e.id, format_display_text e mode))) = Entry.id := rfl
        rw [List.append_assoc, List.nodup_append]
        refine ⟨hsel, by rw [hfst]; exact hkey, ?_⟩
        intro i hi hmem
        have himem : i ∈ pool.map Entry.id := by
          rw [hfst] at hmem
          rcases List.mem_append.mp hmem with hm | hm
          · obtain ⟨e, he, rfl⟩ := List.mem_map.mp hm
            exact List.mem_map_of_mem Entry.id (hrowsub e he)
          · obtain ⟨e, he, rfl⟩ := List.mem_map.mp hm
            exact List.mem_map_of_mem Entry.id (removeDrawn_subset e he)
        exact hdisj hi himem

theorem sample_cats_decomp (draw : List Entry → Nat → List Entry)
    (hdraw : IsDraw draw) (mode : String) :
    ∀ (cats : List (String × Int)) (pool : List Entry) (sel : List (Nat × String)),
      ∃ parts : List (List (Nat × String)),
        parts.length = cats.length ∧
        sample_cats draw mode cats pool sel = sel ++ parts.flatten ∧
        ∀ pr ∈ parts.zip cats, ∀ p ∈ pr.1,
          ∃ e, e ∈ pool ∧ e.category = pr.2.1 ∧
            p = (e.id, format_display_text e mode) := by
  intro cats
  induction cats with
  | nil =>
    intro pool sel
    exact ⟨[], rfl, by simp [sample_cats_nil], by simp⟩
  | cons cn rest ih =>
    obtain ⟨cat, needed⟩ := cn
    intro pool sel
    by_cases h1 : needed ≤ 0
    · obtain ⟨parts, hlen, heq, hmem⟩ := ih pool sel
      refine ⟨[] :: parts, by simp [hlen], ?_, ?_⟩
      · rw [sample_cats_cons, if_pos h1, heq]; simp
      · intro pr hpr p hp
        rcases List.mem_cons.mp hpr with rfl | hpr'
        · cases hp
        · exact hmem pr hpr' p hp
    · by_cases h2 : (pool.filter (fun e => e.category == cat)).length = 0
      · obtain ⟨parts, hlen, heq, hmem⟩ := ih pool sel
        refine ⟨[] :: parts, by simp [hlen], ?_, ?_⟩
        · rw [sample_cats_cons, if_neg h1]
          simp only
          rw [if_pos h2, heq]
          simp
        · intro pr hpr p hp
          rcases List.mem_cons.mp hpr with rfl | hpr'
          · cases hp
          · exact hmem pr hpr' p hp
      · set pc := pool.filter (fun e => e.category == cat) with hpc
        set rows := draw pc (min needed.toNat pc.length) with hrowsdef
        obtain ⟨parts, hlen, heq, hmem⟩ :=
          ih (removeDrawn pool rows)
            (sel ++ rows.map (fun e => (e.id, format_display_text e mode)))
        refine ⟨rows.map (fun e => (e.id, format_display_text e mode)) :: parts,
          by simp [hlen], ?_, ?_⟩
        · rw [sample_cats_cons, if_neg h1]
          simp only
          rw [if_neg h2, ← hpc, ← hrowsdef, heq, List.flatten_cons,
            List.append_assoc]
        · intro pr hpr p hp
          rcases List.mem_cons.mp hpr with rfl | hpr'
          · obtain ⟨e, he, rfl⟩ := List.mem_map.mp hp
            have he' : e ∈ pc := (hdraw pc _).1.subset he
            rw [hpc] at he'
            refine ⟨e, List.mem_of_mem_filter he', ?_, rfl⟩
            have := List.of_mem_filter he'
            simpa using this
          · obtain ⟨e, he, hcat, hpe⟩ := hmem pr hpr' p hp
            exact ⟨e, removeDrawn_subset e he, hcat, hpe⟩

/-! ### Shared facts about `sample_items` results -/

theorem sample_items_result_mem (draw : List Entry → Nat → List Entry)
    (hdraw : IsDraw draw) (store : List Entry) (cats : List (String × Int))
    (rc : Int) (mode : String) (num : Option Int) (res : List (Nat × String))
    (h : sample_items draw store cats rc mode num = .ok res) :
    ∀ p ∈ res, ∃ e, e ∈ store ∧ e.status ≠ "mastered" ∧
      p = (e.id, format_display_text e mode) := by
  by_cases hs : store.length = 0
  · rw [sample_items, if_pos hs] at h
    cases h
  by_cases hf : (cats.map Prod.snd).sum = 0 ∧ rc = 0
  · obtain ⟨hsum, rfl⟩ := hf
    cases num with
    | none => rw [sample_items_fallback_none draw store cats mode hs hsum] at h; cases h
    | some n =>
      rw [sample_items_fallback_some draw store cats mode n hs hsum] at h
      split at h
      · cases h
      · injection h with h
        subst h
        intro p hp
        obtain ⟨e, he, rfl⟩ := List.mem_map.mp hp
        have he' : e ∈ eligible_pool store := (hdraw _ _).1.subset he
        obtain ⟨h1, h2⟩ := mem_eligible_pool.mp he'
        exact ⟨e, h1, h2, rfl⟩
  · rw [sample_items_phased draw store cats rc mode num hs hf] at h
    injection h with h
    subst h
    intro p hp
    have hgen := sample_cats_mem draw hdraw mode
      (fun e => e ∈ store ∧ e.status ≠ "mastered") cats
      (pool_after_review draw store rc)
      ((review_draw draw store rc).map
        (fun e => (e.id, format_display_text e mode))) ?_ ?_ p hp
    · obtain ⟨e, ⟨h1, h2⟩, h3⟩ := hgen
      exact ⟨e, h1, h2, h3⟩
    · intro e he
      exact mem_eligible_pool.mp (pool_after_review_subset e he)
    · intro q hq
      obtain ⟨e, he, rfl⟩ := List.mem_map.mp hq
      have := mem_review_pool.mp (review_draw_mem hdraw e he)
      exact ⟨e, ⟨this.1.1, this.1.2⟩, rfl⟩

theorem sample_items_result_ids_nodup (draw : List Entry → Nat → List Entry)
    (hdraw : IsDraw draw) (store : List Entry) (cats : List (String × Int))
    (rc : Int) (mode : String) (num : Option Int) (res : List (Nat × String))
    (hids : (store.map Entry.id).Nodup)
    (h : sample_items draw store cats rc mode num = .ok res) :
    (res.map Prod.fst).Nodup := by
  have hfst : ∀ (l : List Entry),
      ((l.map (fun e => (e.id, format_display_text e mode))).map Prod.fst)
        = l.map Entry.id := by
    intro l
    rw [List.map_map]
    rfl
  by_cases hs : store.length = 0
  · rw [sample_items, if_pos hs] at h
    cases h
  by_cases hf : (cats.map Prod.snd).sum = 0 ∧ rc = 0
  · obtain ⟨hsum, rfl⟩ := hf
    cases num with
    | none => rw [sample_items_fallback_none draw store cats mode hs hsum] at h; cases h
    | some n =>
      rw [sample_items_fallback_some draw store cats mode n hs hsum] at h
      split at h
      · cases h
      · injection h with h
        subst h
        rw [hfst]
        exact subperm_ids_nodup (hdraw _ _).1 (eligible_ids_nodup hids)
  · rw [sample_items_phased draw store cats rc mode num hs hf] at h
    injection h with h
    subst h
    refine sample_cats_ids_nodup draw hdraw mode cats _ _ ?_
    rw [hfst]
    by_cases hr : 0 < rc ∧ 0 < (review_pool_of store).length
    · rw [show pool_after_review draw store rc
          = removeDrawn (eligible_pool store) (review_draw draw store rc)
        from by rw [pool_after_review, if_pos hr]]
      refine drawn_append_removeDrawn_nodup (eligible_ids_nodup hids) ?_
      have : List.Subperm (review_draw draw store rc) (review_pool_of store) := by
        rw [review_draw, if_pos hr]
        exact (hdraw _ _).1
      exact subperm_ids_nodup this (review_pool_ids_nodup hids)
    · rw [show review_draw draw store rc = [] from by rw [review_draw, if_neg hr],
        show pool_after_review draw store rc = eligible_pool store
          from by rw [pool_after_review, if_neg hr]]
      simpa using eligible_ids_nodup hids

/-! ### Bookkeeping and clamping helpers -/

theorem sample_items_no_data (draw : List Entry → Nat → List Entry)
    (store : List Entry) (cats : List (String × Int)) (rc : Int)
    (mode : String) (num : Option Int) (hs : store.length = 0) :
    sample_items draw store cats rc mode num = .error .noData := by
  simp [sample_items, hs]

theorem map_bump_zero (l : List Entry) :
    l.map (fun e => { e with timesShown := e.timesShown + 0 }) = l := by
  induction l with
  | nil => rfl
  | cons a t ih => cases a; simp [ih]

theorem update_times_shown_eq (rs : List (Nat × String)) (store : List Entry) :
    update_times_shown store rs =
      store.map (fun e =>
        { e with timesShown := e.timesShown + (rs.map Prod.fst).count e.id }) := by
  induction rs generalizing store with
  | nil =>
    simp only [update_times_shown, List.foldl_nil, List.map_nil, List.count_nil]
    exact (map_bump_zero store).symm
  | cons p rs ih =>
    have h1 : update_times_shown store (p :: rs)
        = update_times_shown (store.map (fun e =>
            if e.id = p.1 then { e with timesShown := e.timesShown + 1 } else e)) rs := by
      rw [update_times_shown, update_times_shown, List.foldl_cons]
    rw [h1, ih, List.map_map]
    refine List.map_congr_left ?_
    intro e _
    simp only [Function.comp_apply, List.map_cons, List.count_cons]
    by_cases he : e.id = p.1
    · rw [if_pos he]
      cases e
      simp_all
      omega
    · rw [if_neg he]
      cases e
      simp_all
      omega

theorem draw_zero_nil {draw : List Entry → Nat → List Entry}
    (hdraw : IsDraw draw) (pool : List Entry) (hp : pool.length = 0) :
    draw pool pool.length = [] := by
  have hlen := (hdraw pool pool.length).2
  rw [hp] at hlen ⊢
  exact List.length_eq_zero.mp (by rw [hlen]; simp)

theorem review_draw_exceed {draw : List Entry → Nat → List Entry}
    (hdraw : IsDraw draw) (store : List Entry) (rc : Int)
    (hlt : ((review_pool_of store).length : Int) < rc) :
    review_draw draw store rc
      = draw (review_pool_of store) (review_pool_of store).length := by
  rw [review_draw]
  by_cases h0 : 0 < (review_pool_of store).length
  · have hrc : (0 : Int) < rc := by
      have : (0 : Int) ≤ ((review_pool_of store).length : Int) :=
        Int.natCast_nonneg _
      omega
    rw [if_pos ⟨hrc, h0⟩]
    congr 1
    have : (review_pool_of store).length ≤ rc.toNat := by omega
    exact Nat.min_eq_right this
  · rw [if_neg (by tauto)]
    have hL : (review_pool_of store).length = 0 := by omega
    exact (draw_zero_nil hdraw (review_pool_of store) hL).symm

/-! ### Claim theorems -/

/-- C10: for any display mode other than exactly "Deutsch" and exactly
"English" (including "Both" and unrecognized values), the rendered text is
the source text joined to the target text with the fixed separator. -/
theorem format_display_text_default_both (row : Entry) (mode : String)
    (h1 : mode ≠ "Deutsch") (h2 : mode ≠ "English") :
    format_display_text row mode = row.deutsch ++ "  —  " ++ row.english := by
  rw [format_display_text, if_neg h1, if_neg h2]

/-- C10 witness: the "Both" mode on a concrete entry. -/
theorem format_display_text_default_both_witness :
    ("Both" ≠ "Deutsch") ∧ ("Both" ≠ "English") ∧
    format_display_text eHund "Both" = eHund.deutsch ++ "  —  " ++ eHund.english :=
  ⟨by decide, by decide,
    format_display_text_default_both eHund "Both" (by decide) (by decide)⟩

/-- C9: for an id in the current selection, the composition mark_mastered;
clear_status; mark_mastered leaves that entry's status mastered and changes
no field of any other entry. -/
theorem mark_clear_mark_mastered (store : List Entry) (sel : List Nat)
    (idx i : Nat) (hsel : idx ∈ sel) (hi : i < store.length) :
    ∃ e, store[i]? = some e ∧
      (mark_mastered (clear_status (mark_mastered store idx) idx) idx)[i]? =
        some (if e.id = idx then { e with status := "mastered" } else e) := by
  refine ⟨store[i], List.getElem?_eq_getElem hi, ?_⟩
  simp only [mark_mastered, clear_status, set_status, List.getElem?_map,
    List.getElem?_eq_getElem hi, Option.map_some']
  by_cases h : store[i].id = idx
  · simp [h]
  · simp [h]

/-- C9 witness: the target entry of a two-entry store ends mastered. -/
theorem mark_clear_mark_mastered_witness :
    (0 : Nat) ∈ [0, 1] ∧ 0 < ([eHund, eBerg] : List Entry).length ∧
    (∃ e, ([eHund, eBerg] : List Entry)[0]? = some e ∧
      (mark_mastered (clear_status (mark_mastered [eHund, eBerg] 0) 0) 0)[0]? =
        some (if e.id = 0 then { e with status := "mastered" } else e)) :=
  ⟨by decide, by decide,
    mark_clear_mark_mastered [eHund, eBerg] [0, 1] 0 0 (by decide) (by decide)⟩

/-- C2 (code bug): a load whose table lacks the required columns reports
failure, yet the in-memory table and the remembered file path have already
been overwritten, so the prior state is not intact. -/
theorem load_file_missing_columns_mutates :
    (load_file priorState "other.csv" badTable).2 = false ∧
    (load_file priorState "other.csv" badTable).1.df = some badTable ∧
    (load_file priorState "other.csv" badTable).1.csv_file_path = some "other.csv" ∧
    (load_file priorState "other.csv" badTable).1.df ≠ priorState.df ∧
    (load_file priorState "other.csv" badTable).1.csv_file_path
      ≠ priorState.csv_file_path :=
  ⟨rfl, rfl, rfl, by decide, by decide⟩

/-- C1 counterexample: category quota A = 1 is nonzero, yet because the
quota of B is -1 the quota sum is zero and the fallback branch runs — the
result is the fallback draw and changes with the fallback count. -/
theorem fallback_despite_nonzero_quota :
    sample_items drawTake [eHund, eBerg] [("A", 1), ("B", -1)] 0 "Deutsch" (some 2) =
      .ok [(0, "Hund"), (1, "Berg")] ∧
    sample_items drawTake [eHund, eBerg] [("A", 1), ("B", -1)] 0 "Deutsch" (some 1) =
      .ok [(0, "Hund")] ∧
    ((1 : Int) ≠ 0) :=
  ⟨rfl, rfl, by decide⟩

/-- C1 (amended): fallback activates iff the category quotas sum to zero and
the review count is zero; when it activates the result is a single draw from
the full eligible pool (no review- or category-phase draw), and otherwise
the result never depends on the fallback count. -/
theorem fallback_iff_zero_total (draw : List Entry → Nat → List Entry)
    (store : List Entry) (cats : List (String × Int)) (rc : Int) (mode : String)
    (hs : store.length ≠ 0) :
    (((cats.map Prod.snd).sum = 0 ∧ rc = 0) →
      ∀ n : Int, 0 ≤ n →
        sample_items draw store cats rc mode (some n) =
          .ok ((draw (eligible_pool store)
              (min n ((eligible_pool store).length : Int)).toNat).map
            (fun e => (e.id, format_display_text e mode)))) ∧
    (¬((cats.map Prod.snd).sum = 0 ∧ rc = 0) →
      ∀ num₁ num₂ : Option Int,
        sample_items draw store cats rc mode num₁ =
          sample_items draw store cats rc mode num₂) := by
  constructor
  · rintro ⟨hsum, rfl⟩ n hn
    rw [sample_items_fallback_some draw store cats mode n hs hsum,
      if_neg (not_lt.mpr (le_min hn (Int.natCast_nonneg _)))]
  · intro hf num₁ num₂
    rw [sample_items_phased draw store cats rc mode num₁ hs hf,
      sample_items_phased draw store cats rc mode num₂ hs hf]

/-- C1 amended witness: with a nonzero quota sum the fallback count has no
influence on the result. -/
theorem fallback_iff_zero_total_witness :
    ([eHund] : List Entry).length ≠ 0 ∧
    sample_items drawTake [eHund] [("A", 1)] 0 "Deutsch" (some 5) =
      sample_items drawTake [eHund] [("A", 1)] 0 "Deutsch" none :=
  ⟨by decide,
    (fallback_iff_zero_total drawTake [eHund] [("A", 1)] 0 "Deutsch"
      (by decide)).2 (by decide) (some 5) none⟩

/-- C3 counterexample: with every quota zero and an unparsable fallback
field the call aborts with an error and an empty result, instead of
proceeding as if the fallback count were zero (which returns an empty
selection without an error). -/
theorem fallback_field_not_treated_as_zero :
    show_entries_sample drawTake [eHund] [("A", some 0)] (some 0) "Deutsch" none =
      .error .invalidNumericInput ∧
    show_entries_sample drawTake [eHund] [("A", some 0)] (some 0) "Deutsch" (some 0) =
      .ok [] :=
  ⟨rfl, rfl⟩

/-- C3 (amended): unparsable category and review fields are read as zero and
the call proceeds; the fallback field is not consulted unless the fallback
phase activates, and when it does activate an unparsable fallback field
aborts the call with `invalidNumericInput` instead of acting as zero. -/
theorem show_entries_numeric_field_handling (draw : List Entry → Nat → List Entry)
    (store : List Entry) (vars : List (String × Option Int))
    (rf : Option Int) (mode : String) :
    (¬((vars.map (fun cv => cv.2.getD 0)).sum = 0 ∧ rf.getD 0 = 0) →
      ∀ numf numf' : Option Int,
        show_entries_sample draw store vars rf mode numf =
          show_entries_sample draw store vars rf mode numf') ∧
    (store.length ≠ 0 → (vars.map (fun cv => cv.2.getD 0)).sum = 0 →
      rf.getD 0 = 0 →
      show_entries_sample draw store vars rf mode none =
        .error .invalidNumericInput) := by
  have hmap : ((vars.map (fun cv => (cv.1, cv.2.getD 0))).map Prod.snd)
      = vars.map (fun cv => cv.2.getD 0) := by
    rw [List.map_map]; rfl
  constructor
  · intro hf numf numf'
    by_cases hs : store.length = 0
    · rw [show_entries_sample, show_entries_sample,
        sample_items_no_data draw store _ _ mode numf hs,
        sample_items_no_data draw store _ _ mode numf' hs]
    · rw [show_entries_sample, show_entries_sample,
        sample_items_phased draw store _ _ mode numf hs (by rw [hmap]; exact hf),
        sample_items_phased draw store _ _ mode numf' hs (by rw [hmap]; exact hf)]
  · intro hs hsum hrf
    rw [show_entries_sample, hrf]
    exact sample_items_fallback_none draw store _ mode hs (by rw [hmap]; exact hsum)

/-- C3 amended witness: a nonzero category quota makes the result
independent of the fallback field, and the all-zero case with an unparsable
fallback field errors. -/
theorem show_entries_numeric_field_handling_witness :
    (¬((([("A", some 1), ("B", (none : Option Int))].map
        (fun cv => cv.2.getD 0)).sum = 0) ∧ ((none : Option Int).getD 0 = 0)) ∧
      show_entries_sample drawTake [eHund] [("A", some 1), ("B", none)] none
          "Deutsch" (some 9) =
        show_entries_sample drawTake [eHund] [("A", some 1), ("B", none)] none
          "Deutsch" none) ∧
    (([eHund] : List Entry).length ≠ 0 ∧
      show_entries_sample drawTake [eHund] [("A", none)] (some 0) "Deutsch" none =
        .error .invalidNumericInput) :=
  ⟨⟨by decide,
    (show_entries_numeric_field_handling drawTake [eHund]
      [("A", some 1), ("B", none)] none "Deutsch").1 (by decide) (some 9) none⟩,
   ⟨by decide,
    (show_entries_numeric_field_handling drawTake [eHund]
      [("A", none)] (some 0) "Deutsch").2 (by decide) (by decide) (by decide)⟩⟩

/-- C4: for every store with distinct ids and every combination of inputs,
no entry whose status is mastered appears in the result of a sampling
call. -/
theorem sample_items_excludes_mastered (draw : List Entry → Nat → List Entry)
    (hdraw : IsDraw draw) (store : List Entry) (cats : List (String × Int))
    (rc : Int) (mode : String) (num : Option Int) (res : List (Nat × String))
    (hids : (store.map Entry.id).Nodup)
    (h : sample_items draw store cats rc mode num = .ok res) :
    ∀ e ∈ store, e.status = "mastered" → ∀ p ∈ res, p.1 ≠ e.id := by
  intro e he hmast p hp hpe
  obtain ⟨e', he', hst', hpe'⟩ :=
    sample_items_result_mem draw hdraw store cats rc mode num res h p hp
  have hid : e'.id = e.id := by
    rw [hpe'] at hpe
    exact hpe
  exact hst' (by rw [eq_of_mem_ids_nodup hids he' he hid]; exact hmast)

/-- C4 witness: a concrete run on a store containing a mastered entry; the
mastered id 2 is absent from the selection. -/
theorem sample_items_excludes_mastered_witness :
    IsDraw drawTake ∧ ((wstore.map Entry.id).Nodup) ∧
    sample_items drawTake wstore [("A", 1), ("B", 2)] 1 "Deutsch" none =
      .ok [(3, "Baum"), (0, "Hund"), (1, "Berg")] ∧
    eKatze ∈ wstore ∧ eKatze.status = "mastered" ∧
    ((3 : Nat), ("Baum" : String)).1 ≠ eKatze.id :=
  ⟨drawTake_isDraw, by decide, rfl, by decide, by decide,
    sample_items_excludes_mastered drawTake drawTake_isDraw wstore
      [("A", 1), ("B", 2)] 1 "Deutsch" none [(3, "Baum"), (0, "Hund"), (1, "Berg")]
      (by decide) rfl eKatze (by decide) (by decide) (3, "Baum") (by decide)⟩

/-- C5: within one sampling call every selected id is distinct, across the
review, category and fallback phases. -/
theorem sample_items_no_duplicates (draw : List Entry → Nat → List Entry)
    (hdraw : IsDraw draw) (store : List Entry) (cats : List (String × Int))
    (rc : Int) (mode : String) (num : Option Int) (res : List (Nat × String))
    (hids : (store.map Entry.id).Nodup)
    (h : sample_items draw store cats rc mode num = .ok res) :
    (res.map Prod.fst).Nodup :=
  sample_items_result_ids_nodup draw hdraw store cats rc mode num res hids h

/-- C5 witness: the ids of a concrete three-entry selection are pairwise
distinct. -/
theorem sample_items_no_duplicates_witness :
    IsDraw drawTake ∧ ((wstore.map Entry.id).Nodup) ∧
    sample_items drawTake wstore [("A", 1), ("B", 2)] 1 "Deutsch" none =
      .ok [(3, "Baum"), (0, "Hund"), (1, "Berg")] ∧
    (([(3, "Baum"), (0, "Hund"), (1, "Berg")] :
        List (Nat × String)).map Prod.fst).Nodup :=
  ⟨drawTake_isDraw, by decide, rfl,
    sample_items_no_duplicates drawTake drawTake_isDraw wstore
      [("A", 1), ("B", 2)] 1 "Deutsch" none [(3, "Baum"), (0, "Hund"), (1, "Berg")]
      (by decide) rfl⟩

/-- C7: when the review and/or category phases run, the result is exactly
the review-phase picks (in draw order, all of review status) followed by
the category groups in the caller-supplied category order, each group drawn
from its own category. -/
theorem sample_items_ordering (draw : List Entry → Nat → List Entry)
    (hdraw : IsDraw draw) (store : List Entry) (cats : List (String × Int))
    (rc : Int) (mode : String) (num : Option Int) (res : List (Nat × String))
    (hnf : ¬((cats.map Prod.snd).sum = 0 ∧ rc = 0))
    (h : sample_items draw store cats rc mode num = .ok res) :
    ∃ parts : List (List (Nat × String)),
      parts.length = cats.length ∧
      res = (review_draw draw store rc).map
          (fun e => (e.id, format_display_text e mode)) ++ parts.flatten ∧
      (∀ e ∈ review_draw draw store rc, e.status = "review") ∧
      ∀ pr ∈ parts.zip cats, ∀ p ∈ pr.1,
        ∃ e, e ∈ store ∧ e.category = pr.2.1 ∧
          p = (e.id, format_display_text e mode) := by
  have hs : store.length ≠ 0 := by
    intro hs0
    rw [sample_items_no_data draw store cats rc mode num hs0] at h
    cases h
  rw [sample_items_phased draw store cats rc mode num hs hnf] at h
  injection h with h
  obtain ⟨parts, hlen, heq, hmem⟩ := sample_cats_decomp draw hdraw mode cats
    (pool_after_review draw store rc)
    ((review_draw draw store rc).map (fun e => (e.id, format_display_text e mode)))
  refine ⟨parts, hlen, by rw [← h, heq], ?_, ?_⟩
  · intro e he
    exact (mem_review_pool.mp (review_draw_mem hdraw e he)).2
  · intro pr hpr p hp
    obtain ⟨e, he, hcat, hpe⟩ := hmem pr hpr p hp
    have hel := mem_eligible_pool.mp (pool_after_review_subset e he)
    exact ⟨e, hel.1, hcat, hpe⟩

/-- C7 witness: a concrete run with one review pick followed by one "A"
group and one "B" group. -/
theorem sample_items_ordering_witness :
    (¬((([("A", 1), ("B", 2)] : List (String × Int)).map Prod.snd).sum = 0 ∧
        (1 : Int) = 0)) ∧
    (∃ parts : List (List (Nat × String)),
      parts.length = ([("A", 1), ("B", 2)] : List (String × Int)).length ∧
      ([(3, "Baum"), (0, "Hund"), (1, "Berg")] : List (Nat × String)) =
        (review_draw drawTake wstore 1).map
          (fun e => (e.id, format_display_text e "Deutsch")) ++ parts.flatten ∧
      (∀ e ∈ review_draw drawTake wstore 1, e.status = "review") ∧
      ∀ pr ∈ parts.zip ([("A", 1), ("B", 2)] : List (String × Int)), ∀ p ∈ pr.1,
        ∃ e, e ∈ wstore ∧ e.category = pr.2.1 ∧
          p = (e.id, format_display_text e "Deutsch")) :=
  ⟨by decide,
    sample_items_ordering drawTake drawTake_isDraw wstore [("A", 1), ("B", 2)] 1
      "Deutsch" none [(3, "Baum"), (0, "Hund"), (1, "Berg")] (by decide) rfl⟩

/-- C8: sampling itself is pure selection; after the caller's bookkeeping
step each selected entry's TimesShown counter has increased by exactly one
and every field of every non-selected entry (and every other field of the
selected entries) is unchanged. -/
theorem sample_then_bookkeeping (draw : List Entry → Nat → List Entry)
    (hdraw : IsDraw draw) (store : List Entry) (cats : List (String × Int))
    (rc : Int) (mode : String) (num : Option Int) (res : List (Nat × String))
    (i : Nat) (hids : (store.map Entry.id).Nodup)
    (h : sample_items draw store cats rc mode num = .ok res)
    (hi : i < store.length) :
    ∃ e, store[i]? = some e ∧
      (update_times_shown store res)[i]? =
        some (if e.id ∈ res.map Prod.fst then
          { e with timesShown := e.timesShown + 1 } else e) := by
  have hnodup : (res.map Prod.fst).Nodup :=
    sample_items_result_ids_nodup draw hdraw store cats rc mode num res hids h
  refine ⟨store[i], List.getElem?_eq_getElem hi, ?_⟩
  rw [update_times_shown_eq, List.getElem?_map, List.getElem?_eq_getElem hi]
  simp only [Option.map_some']
  congr 1
  by_cases hmem : store[i].id ∈ res.map Prod.fst
  · rw [if_pos hmem, List.count_eq_one_of_mem hnodup hmem]
  · rw [if_neg hmem, List.count_eq_zero.mpr hmem, Nat.add_zero]

/-- C8 witness: after the concrete run, the selected entry at position 0 has
its counter incremented (by the nodup guarantee, by exactly one). -/
theorem sample_then_bookkeeping_witness :
    IsDraw drawTake ∧ ((wstore.map Entry.id).Nodup) ∧
    sample_items drawTake wstore [("A", 1), ("B", 2)] 1 "Deutsch" none =
      .ok [(3, "Baum"), (0, "Hund"), (1, "Berg")] ∧
    0 < wstore.length ∧
    (∃ e, wstore[0]? = some e ∧
      (update_times_shown wstore [(3, "Baum"), (0, "Hund"), (1, "Berg")])[0]? =
        some (if e.id ∈ ([(3, "Baum"), (0, "Hund"), (1, "Berg")] :
            List (Nat × String)).map Prod.fst then
          { e with timesShown := e.timesShown + 1 } else e)) :=
  ⟨drawTake_isDraw, by decide, rfl, by decide,
    sample_then_bookkeeping drawTake drawTake_isDraw wstore [("A", 1), ("B", 2)]
      1 "Deutsch" none [(3, "Baum"), (0, "Hund"), (1, "Berg")] 0
      (by decide) rfl (by decide)⟩

/-- C6: a requested count exceeding the pool available to its phase is
clamped to the pool size and raises no error, in all three phases: the
review draw is the whole review pool, an oversized category quota draws the
whole remaining pool of that category, and an oversized fallback count
draws the whole eligible pool. -/
theorem sample_items_clamps (draw : List Entry → Nat → List Entry)
    (hdraw : IsDraw draw) :
    (∀ (store : List Entry) (cats : List (String × Int)) (rc : Int)
        (mode : String) (num : Option Int) (res : List (Nat × String)),
      sample_items draw store cats rc mode num = .ok res →
      ((review_pool_of store).length : Int) < rc →
      (draw (review_pool_of store) (review_pool_of store).length).length
          = (review_pool_of store).length ∧
      ∃ rest, res = (draw (review_pool_of store)
          (review_pool_of store).length).map
            (fun e => (e.id, format_display_text e mode)) ++ rest) ∧
    (∀ (pool : List Entry) (sel : List (Nat × String)) (mode cat : String)
        (needed : Int) (rest : List (String × Int)),
      ((pool.filter (fun e => e.category == cat)).length : Int) < needed →
      (draw (pool.filter (fun e => e.category == cat))
          (pool.filter (fun e => e.category == cat)).length).length
        = (pool.filter (fun e => e.category == cat)).length ∧
      sample_cats draw mode ((cat, needed) :: rest) pool sel =
        sample_cats draw mode rest
          (removeDrawn pool (draw (pool.filter (fun e => e.category == cat))
            (pool.filter (fun e => e.category == cat)).length))
          (sel ++ (draw (pool.filter (fun e => e.category == cat))
              (pool.filter (fun e => e.category == cat)).length).map
            (fun e => (e.id, format_display_text e mode)))) ∧
    (∀ (store : List Entry) (cats : List (String × Int)) (mode : String) (n : Int),
      store.length ≠ 0 → (cats.map Prod.snd).sum = 0 →
      ((eligible_pool store).length : Int) < n →
      sample_items draw store cats 0 mode (some n) =
        .ok ((draw (eligible_pool store) (eligible_pool store).length).map
          (fun e => (e.id, format_display_text e mode))) ∧
      (draw (eligible_pool store) (eligible_pool store).length).length
        = (eligible_pool store).length) := by
  refine ⟨?_, ?_, ?_⟩
  · intro store cats rc mode num res h hlt
    have hs : store.length ≠ 0 := by
      intro hs0
      rw [sample_items_no_data draw store cats rc mode num hs0] at h
      cases h
    have hrc : rc ≠ 0 := by
      have hnn : (0 : Int) ≤ ((review_pool_of store).length : Int) :=
        Int.natCast_nonneg _
      omega
    have hnf : ¬((cats.map Prod.snd).sum = 0 ∧ rc = 0) := by tauto
    rw [sample_items_phased draw store cats rc mode num hs hnf] at h
    injection h with h
    refine ⟨by rw [(hdraw _ _).2, Nat.min_self], ?_⟩
    obtain ⟨parts, hlen, heq, hmem⟩ := sample_cats_decomp draw hdraw mode cats
      (pool_after_review draw store rc)
      ((review_draw draw store rc).map
        (fun e => (e.id, format_display_text e mode)))
    refine ⟨parts.flatten, ?_⟩
    rw [← h, heq, review_draw_exceed hdraw store rc hlt]
  · intro pool sel mode cat needed rest hlt
    by_cases hpc : (pool.filter (fun e => e.category == cat)).length = 0
    · have h0 : (0 : Int) < needed := by
        rw [hpc] at hlt
        exact_mod_cast hlt
      have hrows : draw (pool.filter (fun e => e.category == cat))
          (pool.filter (fun e => e.category == cat)).length = [] :=
        draw_zero_nil hdraw _ hpc
      refine ⟨by rw [hrows, hpc]; rfl, ?_⟩
      rw [sample_cats_cons, if_neg (by omega), hrows, removeDrawn_nil]
      simp only
      rw [if_pos hpc]
      simp
    · have hnn : ¬ needed ≤ 0 := by
        have : (0 : Int) ≤ ((pool.filter (fun e => e.category == cat)).length : Int) :=
          Int.natCast_nonneg _
        omega
      have hmin : min needed.toNat (pool.filter (fun e => e.category == cat)).length
          = (pool.filter (fun e => e.category == cat)).length := by
        have : (pool.filter (fun e => e.category == cat)).length ≤ needed.toNat := by
          omega
        exact Nat.min_eq_right this
      refine ⟨by rw [(hdraw _ _).2, Nat.min_self], ?_⟩
      rw [sample_cats_cons, if_neg hnn]
      simp only
      rw [if_neg hpc, hmin]
  · intro store cats mode n hs hsum hlt
    have hmin : min n ((eligible_pool store).length : Int)
        = ((eligible_pool store).length : Int) :=
      min_eq_right (le_of_lt hlt)
    rw [sample_items_fallback_some draw store cats mode n hs hsum, hmin,
      if_neg (not_lt.mpr (Int.natCast_nonneg _))]
    refine ⟨?_, by rw [(hdraw _ _).2, Nat.min_self]⟩
    rw [Int.toNat_natCast]

/-- C6 witness: with every quota zero and fallback count 99 on a store with
three eligible entries, exactly the whole eligible pool is drawn. -/
theorem sample_items_clamps_witness :
    IsDraw drawTake ∧
    wstore.length ≠ 0 ∧
    (([("A", 0)] : List (String × Int)).map Prod.snd).sum = 0 ∧
    ((eligible_pool wstore).length : Int) < 99 ∧
    (sample_items drawTake wstore [("A", 0)] 0 "Deutsch" (some 99) =
      .ok ((drawTake (eligible_pool wstore) (eligible_pool wstore).length).map
        (fun e => (e.id, format_display_text e "Deutsch"))) ∧
      (drawTake (eligible_pool wstore) (eligible_pool wstore).length).length
        = (eligible_pool wstore).length) :=
  ⟨drawTake_isDraw, by decide, by decide, by decide,
    (sample_items_clamps drawTake drawTake_isDraw).2.2 wstore [("A", 0)]
      "Deutsch" 99 (by decide) (by decide) (by decide)⟩
